import Mathlib

/-!
Verification of the `event-manager` library (`src/index.ts`).

The embedding below is a shallow translation of the TypeScript source:

* `EventPriority` is the numeric enum `MONITOR = 0 .. LOWEST = 5`; priorities
  are plain naturals.
* `EventHandlerMetadata` mirrors the interface `{ handler, priority, id }`.
  The handler payload is a type parameter `α`; emission is parameterised by a
  function `run : α → σ → σ × Option ε` interpreting a payload as a state
  transformer that may additionally raise an error (`await handler(event)`
  either resolves, mutating the world `σ`, or rejects with an `ε`).
* `CancellableEvent` carries the two private fields `cancelled` and
  `cancelReason` together with `isCancelled`, `getCancelReason` and `cancel`.
* `EventManager.listeners : Map<string, EventHandlerMetadata[]>` becomes an
  association list `List (String × List (EventHandlerMetadata α))` in key
  insertion order, which is exactly the iteration order of a JS `Map`;
  `getEntry?`, `setEntry`, `delEntry` are `Map.get`, `Map.set`, `Map.delete`.
* `Array.prototype.sort` with comparator `(a, b) => a.priority - b.priority`
  is (per the ECMAScript specification) a stable sort by ascending priority.
  A stable sort is extensionally unique, so it is embedded as Mathlib's
  stable `List.insertionSort` on the relation `a.priority ≤ b.priority`.
* `emit` takes the snapshot `[...bucket].sort(...)` of the bucket at call
  time and runs the dispatch loop over that snapshot, checking
  `event instanceof CancellableEvent && event.isCancelled()` (abstracted as
  `canc : σ → Bool`) strictly before each invocation.  Wall-clock timing
  (`performance.now()`, the `executionTime` fields) is not modelled; no
  claim refers to it.
-/

/-- Priority levels of the `EventPriority` enum; lower value runs earlier. -/
abbrev EventPriority := Nat

namespace EventPriority

def MONITOR : EventPriority := 0
def HIGHEST : EventPriority := 1
def HIGH : EventPriority := 2
def NORMAL : EventPriority := 3
def LOW : EventPriority := 4
def LOWEST : EventPriority := 5

end EventPriority

/-- Metadata record stored in the registry for one registered handler,
mirroring the TypeScript interface `EventHandlerMetadata`. -/
structure EventHandlerMetadata (α : Type) where
  handler : α
  priority : Nat
  id : String
deriving DecidableEq

/-- State of an event extending `CancellableEvent`: the two private fields
`cancelled` (initially `false`) and `cancelReason` (initially `''`). -/
structure CancellableEvent where
  cancelled : Bool := false
  cancelReason : String := ""
deriving DecidableEq

namespace CancellableEvent

/-- Method `isCancelled()`. -/
def isCancelled (e : CancellableEvent) : Bool :=
  e.cancelled

/-- Method `getCancelReason()`. -/
def getCancelReason (e : CancellableEvent) : String :=
  e.cancelReason

/-- Method `cancel(reason = '')`: sets `cancelled` and overwrites
`cancelReason` with the (possibly defaulted) argument. -/
def cancel (e : CancellableEvent) (reason : String := "") : CancellableEvent :=
  { e with cancelled := true, cancelReason := reason }

end CancellableEvent

/-- Comparator relation of `handlers.sort((a, b) => a.priority - b.priority)`:
`a` may stay before `b` exactly when `a.priority ≤ b.priority`. -/
def priorityLE {α : Type} (a b : EventHandlerMetadata α) : Prop :=
  a.priority ≤ b.priority

instance {α : Type} : DecidableRel (priorityLE (α := α)) :=
  fun a b => inferInstanceAs (Decidable (a.priority ≤ b.priority))

instance {α : Type} : IsTotal (EventHandlerMetadata α) priorityLE :=
  ⟨fun a b => Nat.le_total a.priority b.priority⟩

instance {α : Type} : IsTrans (EventHandlerMetadata α) priorityLE :=
  ⟨fun _ _ _ hab hbc => Nat.le_trans hab hbc⟩

/-- Stable sort by ascending priority: the embedding of the ECMAScript stable
`Array.prototype.sort` with the comparator `(a, b) => a.priority - b.priority`. -/
def sortByPriority {α : Type} (l : List (EventHandlerMetadata α)) :
    List (EventHandlerMetadata α) :=
  l.insertionSort priorityLE

/-- Lookup in a JS `Map` modelled as an association list (`Map.get`). -/
def getEntry? {β : Type} : List (String × β) → String → Option β
  | [], _ => none
  | (k', v) :: t, k => if k' = k then some v else getEntry? t k

/-- Update in a JS `Map` (`Map.set`): replaces the entry in place when the key
is present, otherwise appends the new entry at the end, exactly as a JS `Map`
keeps key insertion order. -/
def setEntry {β : Type} : List (String × β) → String → β → List (String × β)
  | [], k, v => [(k, v)]
  | (k', v') :: t, k, v =>
    if k' = k then (k, v) :: t else (k', v') :: setEntry t k v

/-- Deletion in a JS `Map` (`Map.delete`): removes the entry for the key. -/
def delEntry {β : Type} : List (String × β) → String → List (String × β)
  | [], _ => []
  | (k', v') :: t, k => if k' = k then t else (k', v') :: delEntry t k

/-- The mutable state of an `EventManager` instance: the listeners table and
the id counter. -/
structure EventManager (α : Type) where
  listeners : List (String × List (EventHandlerMetadata α)) := []
  handlerCounter : Nat := 0
deriving DecidableEq

/-- Rendering of the fresh handler id `handler_${n}`. -/
def idOfNat (n : Nat) : String :=
  "handler_" ++ Nat.repr n

namespace EventManager

variable {α : Type}

/-- Bucket of an event type: the handler list the table maps the name to, or
`[]` when the table has no entry (`this.listeners.get(eventName)` with the
`|| []` / `?.` defaults used throughout the source). -/
def bucket (m : EventManager α) (eventName : String) :
    List (EventHandlerMetadata α) :=
  (getEntry? m.listeners eventName).getD []

/-- Method `register`: assigns the id `handler_${++this.handlerCounter}`,
pushes the new record onto the (possibly fresh) bucket and re-sorts the bucket
stably by priority.  Returns the id and the updated manager. -/
def register (m : EventManager α) (eventName : String) (handler : α)
    (priority : Nat := EventPriority.NORMAL) : String × EventManager α :=
  let handlerId := idOfNat (m.handlerCounter + 1)
  let handlers := m.bucket eventName
  let newBucket := sortByPriority (handlers ++ [⟨handler, priority, handlerId⟩])
  (handlerId,
    { listeners := setEntry m.listeners eventName newBucket,
      handlerCounter := m.handlerCounter + 1 })

/-- Removal of the record found by `handlers.findIndex((h) => h.id === handlerId)`
followed by `handlers.splice(index, 1)`: drops the first record with the id. -/
def eraseFirstId (handlerId : String) :
    List (EventHandlerMetadata α) → List (EventHandlerMetadata α)
  | [] => []
  | h :: t => if h.id = handlerId then t else h :: eraseFirstId handlerId t

/-- Loop body of `unregister`: scans the table entries in iteration order,
removes the first record carrying the id, deletes the entry when its bucket
becomes empty, and breaks out of the scan after the first hit. -/
def unregisterGo (handlerId : String) :
    List (String × List (EventHandlerMetadata α)) →
      Bool × List (String × List (EventHandlerMetadata α))
  | [] => (false, [])
  | (k, hs) :: t =>
    if hs.any (fun h => h.id = handlerId) then
      let hs' := eraseFirstId handlerId hs
      (true, if hs'.isEmpty then t else (k, hs') :: t)
    else
      let r := unregisterGo handlerId t
      (r.1, (k, hs) :: r.2)

/-- Method `unregister(handlerId)`: returns whether a removal occurred, along
with the updated manager. -/
def unregister (m : EventManager α) (handlerId : String) :
    Bool × EventManager α :=
  let r := unregisterGo handlerId m.listeners
  (r.1, { m with listeners := r.2 })

/-- Method `unregisterAll(eventClass?)`: deletes one event type's entry, or
clears the whole table when no event class is given. -/
def unregisterAll (m : EventManager α) (eventName : Option String) :
    EventManager α :=
  match eventName with
  | some k => { m with listeners := delEntry m.listeners k }
  | none => { m with listeners := [] }

/-- Method `unregisterByPriority(eventClass, priority)`: filters the records of
that exact priority out of the bucket; deletes the entry when the filtered
bucket is empty, otherwise stores the filtered bucket back. -/
def unregisterByPriority (m : EventManager α) (eventName : String)
    (priority : Nat) : EventManager α :=
  match getEntry? m.listeners eventName with
  | none => m
  | some hs =>
    let filteredHandlers := hs.filter (fun h => h.priority ≠ priority)
    if filteredHandlers.isEmpty then
      { m with listeners := delEntry m.listeners eventName }
    else
      { m with listeners := setEntry m.listeners eventName filteredHandlers }

/-- Method `getHandlerIds(eventClass)`: ids of the bucket in current order. -/
def getHandlerIds (m : EventManager α) (eventName : String) : List String :=
  (m.bucket eventName).map (fun h => h.id)

/-- Method `hasHandlers(eventClass)`: the table has an entry and the entry's
bucket is non-empty. -/
def hasHandlers (m : EventManager α) (eventName : String) : Bool :=
  match getEntry? m.listeners eventName with
  | some hs => decide (hs.length > 0)
  | none => false

/-- Method `getHandlerCount(eventClass)`: size of the bucket, `0` if absent. -/
def getHandlerCount (m : EventManager α) (eventName : String) : Nat :=
  (m.bucket eventName).length

/-- Snapshot taken by `emit`: a copy of the current bucket, sorted stably by
priority (`[...(this.listeners.get(eventName) || [])].sort(...)`). -/
def snapshot (m : EventManager α) (eventName : String) :
    List (EventHandlerMetadata α) :=
  sortByPriority (m.bucket eventName)

end EventManager

/-- Completion summary built by `emit` (the `EventResult` interface).  The
`event` field holds the event / world state after the last executed handler;
`executedHandlers` lists `(priority, handlerId)` of each executed handler in
execution order.  The wall-clock `executionTime` fields are not modelled. -/
structure EmissionResult (σ : Type) where
  event : σ
  handlerCount : Nat
  executedHandlers : List (Nat × String)
deriving DecidableEq

/-- Dispatch loop of `emit` over the snapshot: before each invocation the
cancellation flag is consulted; an invocation either updates the state or
raises, in which case the loop is aborted with the error and the state as the
failing handler left it. -/
def emitLoop {α σ ε : Type} (run : α → σ → σ × Option ε) (canc : σ → Bool) :
    List (EventHandlerMetadata α) → σ → Nat → List (Nat × String) →
      σ × Except ε (Nat × List (Nat × String))
  | [], s, n, d => (s, Except.ok (n, d))
  | r :: rest, s, n, d =>
    if canc s then
      (s, Except.ok (n, d))
    else
      match run r.handler s with
      | (s', some e) => (s', Except.error e)
      | (s', none) => emitLoop run canc rest s' (n + 1) (d ++ [(r.priority, r.id)])

/-- Method `emit(event)`: takes the sorted snapshot of the bucket at call time
and dispatches over it.  On success the `EmissionResult` reports the number of
executed handlers and their `(priority, id)` details; a rejecting handler makes
the whole call fail with that error while the state keeps the effects of the
handlers that already ran. -/
def EventManager.emit {α σ ε : Type} (m : EventManager α) (eventName : String)
    (run : α → σ → σ × Option ε) (canc : σ → Bool) (s : σ) :
    σ × Except ε (EmissionResult σ) :=
  match emitLoop run canc (m.snapshot eventName) s 0 [] with
  | (s', Except.ok (n, d)) =>
    (s', Except.ok { event := s', handlerCount := n, executedHandlers := d })
  | (s', Except.error e) => (s', Except.error e)

/-- Interpretation of a pure handler payload `f : σ → σ`: the invocation
always resolves. -/
def runPure {σ : Type} (f : σ → σ) (s : σ) : σ × Option Empty :=
  (f s, none)

/-- Interpretation of a fallible handler payload: the payload is already the
state transformer, returning `some e` when it throws/rejects with `e`. -/
def runExc {σ ε : Type} (f : σ → σ × Option ε) (s : σ) : σ × Option ε :=
  f s

/-! ### Association-table lemmas (the JS `Map` model) -/

theorem getEntry?_setEntry_self {β : Type} (l : List (String × β)) (k : String)
    (v : β) : getEntry? (setEntry l k v) k = some v := by
  induction l with
  | nil => simp [setEntry, getEntry?]
  | cons e t ih =>
    by_cases h : e.1 = k
    · simp [setEntry, h, getEntry?]
    · simp [setEntry, h, getEntry?, ih]

theorem getEntry?_setEntry_ne {β : Type} (l : List (String × β)) {k k' : String}
    (v : β) (h : k' ≠ k) : getEntry? (setEntry l k v) k' = getEntry? l k' := by
  have h' : ¬k = k' := fun he => h he.symm
  induction l with
  | nil => simp [setEntry, getEntry?, h']
  | cons e t ih =>
    by_cases he : e.1 = k
    · simp [setEntry, he, getEntry?, h']
    · simp [setEntry, he, getEntry?, ih]

theorem getEntry?_delEntry_ne {β : Type} (l : List (String × β)) {k k' : String}
    (h : k' ≠ k) : getEntry? (delEntry l k) k' = getEntry? l k' := by
  have h' : ¬k = k' := fun he => h he.symm
  induction l with
  | nil => simp [delEntry]
  | cons e t ih =>
    by_cases he : e.1 = k
    · simp [delEntry, he, getEntry?, h']
    · simp [delEntry, he, getEntry?, ih]

theorem getEntry?_eq_none_of_not_mem_keys {β : Type} {l : List (String × β)}
    {k : String} (h : k ∉ l.map Prod.fst) : getEntry? l k = none := by
  induction l with
  | nil => rfl
  | cons e t ih =>
    simp only [List.map_cons, List.mem_cons] at h
    push_neg at h
    have h1 : ¬e.1 = k := fun hx => h.1 hx.symm
    simp [getEntry?, h1, ih h.2]

theorem getEntry?_delEntry_self {β : Type} {l : List (String × β)} {k : String}
    (hkeys : (l.map Prod.fst).Nodup) : getEntry? (delEntry l k) k = none := by
  induction l with
  | nil => rfl
  | cons e t ih =>
    simp only [List.map_cons, List.nodup_cons] at hkeys
    by_cases he : e.1 = k
    · have hd : delEntry (e :: t) k = t := by simp [delEntry, he]
      rw [hd]
      exact getEntry?_eq_none_of_not_mem_keys (he ▸ hkeys.1)
    · simp [delEntry, he, getEntry?, ih hkeys.2]

/-! ### C10: repeated cancellation -/

/-- C10: a second `cancel` keeps the event cancelled but unconditionally
overwrites the stored reason, and a later argument-less `cancel()` (whose
reason defaults to `''`) erases a previously set reason to the empty string
while the event stays cancelled. -/
theorem cancel_overwrites_reason (e : CancellableEvent) (r1 r2 : String) :
    ((e.cancel r1).cancel r2).isCancelled = true ∧
    ((e.cancel r1).cancel r2).getCancelReason = r2 ∧
    ((e.cancel r1).cancel).isCancelled = true ∧
    ((e.cancel r1).cancel).getCancelReason = "" := by
  exact ⟨rfl, rfl, rfl, rfl⟩

/-! ### C8: unregisterAll frame -/

/-- C8: with handlers for two distinct event types, `unregisterAll(TypeA)`
empties TypeA (count 0, `hasHandlers` false) and leaves TypeB's bucket and
count untouched. -/
theorem unregisterAll_frame {α : Type} (m : EventManager α)
    (typeA typeB : String) (hkeys : (m.listeners.map Prod.fst).Nodup)
    (hne : typeA ≠ typeB) :
    (m.unregisterAll (some typeA)).getHandlerCount typeA = 0 ∧
    (m.unregisterAll (some typeA)).hasHandlers typeA = false ∧
    (m.unregisterAll (some typeA)).bucket typeB = m.bucket typeB ∧
    (m.unregisterAll (some typeA)).getHandlerCount typeB = m.getHandlerCount typeB := by
  have hself : getEntry? (delEntry m.listeners typeA) typeA = none :=
    getEntry?_delEntry_self hkeys
  have hother : getEntry? (delEntry m.listeners typeA) typeB =
      getEntry? m.listeners typeB :=
    getEntry?_delEntry_ne m.listeners (fun h => hne h.symm)
  refine ⟨?_, ?_, ?_, ?_⟩
  · simp [EventManager.unregisterAll, EventManager.getHandlerCount,
      EventManager.bucket, hself]
  · simp [EventManager.unregisterAll, EventManager.hasHandlers, hself]
  · simp [EventManager.unregisterAll, EventManager.bucket, hother]
  · simp [EventManager.unregisterAll, EventManager.getHandlerCount,
      EventManager.bucket, hother]

/-- Witness for C8 on a concrete manager holding handlers for `"TypeA"` and
`"TypeB"`. -/
theorem unregisterAll_frame_witness :
    (let m := ((((EventManager.register {} "TypeA" () 3).2.register
        "TypeA" () 1).2.register "TypeB" () 4).2 : EventManager Unit)
    (m.unregisterAll (some "TypeA")).getHandlerCount "TypeA" = 0 ∧
    (m.unregisterAll (some "TypeA")).hasHandlers "TypeA" = false ∧
    (m.unregisterAll (some "TypeA")).bucket "TypeB" = m.bucket "TypeB" ∧
    (m.unregisterAll (some "TypeA")).getHandlerCount "TypeB" =
      m.getHandlerCount "TypeB") :=
  unregisterAll_frame _ "TypeA" "TypeB" (by decide) (by decide)

/-! ### C7: unregisterByPriority -/

/-- C7: `unregisterByPriority(eventType, p)` leaves exactly the records whose
priority differs from `p` in the type's bucket (in their prior relative
order), leaves any other event type's bucket untouched, makes
`getHandlerIds` return exactly the surviving ids, is a no-op when the type
has no entry, and removes the entry entirely when no record survives. -/
theorem unregisterByPriority_spec {α : Type} (m : EventManager α)
    (eventName otherName : String) (p : Nat)
    (hkeys : (m.listeners.map Prod.fst).Nodup) (hne : otherName ≠ eventName) :
    (m.unregisterByPriority eventName p).bucket eventName =
      (m.bucket eventName).filter (fun h => h.priority ≠ p) ∧
    (m.unregisterByPriority eventName p).bucket otherName = m.bucket otherName ∧
    (m.unregisterByPriority eventName p).getHandlerIds eventName =
      ((m.bucket eventName).filter (fun h => h.priority ≠ p)).map (fun h => h.id) ∧
    (getEntry? m.listeners eventName = none → m.unregisterByPriority eventName p = m) ∧
    ((m.bucket eventName).filter (fun h => h.priority ≠ p) = [] →
      getEntry? (m.unregisterByPriority eventName p).listeners eventName = none) := by
  have hmain : (m.unregisterByPriority eventName p).bucket eventName =
      (m.bucket eventName).filter (fun h => h.priority ≠ p) ∧
      (m.unregisterByPriority eventName p).bucket otherName = m.bucket otherName ∧
      ((m.bucket eventName).filter (fun h => h.priority ≠ p) = [] →
        getEntry? (m.unregisterByPriority eventName p).listeners eventName = none) := by
    unfold EventManager.unregisterByPriority
    cases hget : getEntry? m.listeners eventName with
    | none =>
      refine ⟨?_, rfl, fun _ => hget⟩
      simp [EventManager.bucket, hget]
    | some hs =>
      simp only
      by_cases hemp : (hs.filter (fun h => h.priority ≠ p)).isEmpty
      · rw [if_pos hemp]
        rw [List.isEmpty_iff] at hemp
        refine ⟨?_, ?_, fun _ => getEntry?_delEntry_self hkeys⟩
        · simp only [EventManager.bucket, getEntry?_delEntry_self hkeys,
            Option.getD_none, hget, Option.getD_some]
          exact hemp.symm
        · simp [EventManager.bucket, getEntry?_delEntry_ne m.listeners hne]
      · rw [if_neg hemp]
        rw [List.isEmpty_iff] at hemp
        refine ⟨?_, ?_, fun hnil => ?_⟩
        · simp [EventManager.bucket, getEntry?_setEntry_self, hget]
        · simp [EventManager.bucket, getEntry?_setEntry_ne m.listeners _ hne]
        · rw [EventManager.bucket, hget, Option.getD_some] at hnil
          exact absurd hnil hemp
  refine ⟨hmain.1, hmain.2.1, ?_, ?_, hmain.2.2⟩
  · rw [EventManager.getHandlerIds, hmain.1]
  · intro hget
    unfold EventManager.unregisterByPriority
    rw [hget]

/-- Witness for C7 on a concrete manager with handlers at priorities HIGH,
NORMAL and HIGH for `"MyEvent"` plus one handler for `"Other"`. -/
theorem unregisterByPriority_spec_witness :
    (let m := (((((EventManager.register {} "MyEvent" () 2).2.register
        "MyEvent" () 3).2.register "MyEvent" () 2).2.register
        "Other" () 4).2 : EventManager Unit)
    (m.unregisterByPriority "MyEvent" 2).bucket "MyEvent" =
      (m.bucket "MyEvent").filter (fun h => h.priority ≠ 2) ∧
    (m.unregisterByPriority "MyEvent" 2).bucket "Other" = m.bucket "Other" ∧
    (m.unregisterByPriority "MyEvent" 2).getHandlerIds "MyEvent" =
      ((m.bucket "MyEvent").filter (fun h => h.priority ≠ 2)).map (fun h => h.id) ∧
    (getEntry? m.listeners "MyEvent" = none →
      m.unregisterByPriority "MyEvent" 2 = m) ∧
    ((m.bucket "MyEvent").filter (fun h => h.priority ≠ 2) = [] →
      getEntry? (m.unregisterByPriority "MyEvent" 2).listeners "MyEvent" = none)) :=
  unregisterByPriority_spec _ "MyEvent" "Other" 2 (by decide) (by decide)

/-! ### Handler-id bookkeeping -/

/-- Ids of every handler record in a listeners table, in table order. -/
def allIdsOf {α : Type} (l : List (String × List (EventHandlerMetadata α))) :
    List String :=
  (l.map (fun e => e.2.map (fun h => h.id))).flatten

/-- Ids of every handler record registered anywhere in the manager's table. -/
def EventManager.allIds {α : Type} (m : EventManager α) : List String :=
  allIdsOf m.listeners

theorem allIdsOf_cons {α : Type} (e : String × List (EventHandlerMetadata α))
    (t : List (String × List (EventHandlerMetadata α))) :
    allIdsOf (e :: t) = e.2.map (fun h => h.id) ++ allIdsOf t := by
  simp [allIdsOf]

theorem eraseFirstId_of_not_mem {α : Type} {handlerId : String}
    {hs : List (EventHandlerMetadata α)}
    (h : handlerId ∉ hs.map (fun h => h.id)) :
    EventManager.eraseFirstId handlerId hs = hs := by
  induction hs with
  | nil => rfl
  | cons a t ih =>
    simp only [List.map_cons, List.mem_cons] at h
    push_neg at h
    have ha : ¬a.id = handlerId := fun hx => h.1 hx.symm
    simp [EventManager.eraseFirstId, ha, ih h.2]

theorem map_id_eraseFirstId {α : Type} (handlerId : String)
    (hs : List (EventHandlerMetadata α)) :
    (EventManager.eraseFirstId handlerId hs).map (fun h => h.id) =
      (hs.map (fun h => h.id)).erase handlerId := by
  induction hs with
  | nil => rfl
  | cons a t ih =>
    by_cases ha : a.id = handlerId
    · simp [EventManager.eraseFirstId, ha, List.erase_cons_head]
    · have : ¬(a.id == handlerId) = true := by simp [ha]
      simp [EventManager.eraseFirstId, ha, List.erase_cons, this, ih]

theorem anyId_iff {α : Type} (handlerId : String)
    (hs : List (EventHandlerMetadata α)) :
    hs.any (fun h => h.id = handlerId) = true ↔
      handlerId ∈ hs.map (fun h => h.id) := by
  simp only [List.any_eq_true, decide_eq_true_eq, List.mem_map]

theorem mem_allIdsOf_of_getEntry? {α : Type}
    {t : List (String × List (EventHandlerMetadata α))} {eventName : String}
    {bs : List (EventHandlerMetadata α)} (hget : getEntry? t eventName = some bs)
    {x : String} (hx : x ∈ bs.map (fun h => h.id)) : x ∈ allIdsOf t := by
  induction t with
  | nil => simp [getEntry?] at hget
  | cons e t ih =>
    rw [allIdsOf_cons]
    by_cases he : e.1 = eventName
    · rw [getEntry?, if_pos he] at hget
      cases hget
      exact List.mem_append_left _ hx
    · rw [getEntry?, if_neg he] at hget
      exact List.mem_append_right _ (ih hget)

/-! ### C4: unregister -/

theorem unregisterGo_fst {α : Type} (handlerId : String)
    (l : List (String × List (EventHandlerMetadata α))) :
    (EventManager.unregisterGo handlerId l).1 = true ↔ handlerId ∈ allIdsOf l := by
  induction l with
  | nil => simp [EventManager.unregisterGo, allIdsOf]
  | cons e t ih =>
    obtain ⟨k, hs⟩ := e
    rw [allIdsOf_cons]
    by_cases hany : hs.any (fun h => h.id = handlerId) = true
    · have hmem := (anyId_iff handlerId hs).1 hany
      simp [EventManager.unregisterGo, hany, List.mem_append, hmem]
    · have hmem : handlerId ∉ hs.map (fun h => h.id) :=
        fun hm => hany ((anyId_iff _ _).2 hm)
      simp [EventManager.unregisterGo, hany, List.mem_append, hmem, ih]

theorem unregisterGo_allIds {α : Type} (handlerId : String)
    (l : List (String × List (EventHandlerMetadata α))) :
    allIdsOf (EventManager.unregisterGo handlerId l).2 =
      (allIdsOf l).erase handlerId := by
  induction l with
  | nil => simp [EventManager.unregisterGo, allIdsOf]
  | cons e t ih =>
    obtain ⟨k, hs⟩ := e
    by_cases hany : hs.any (fun h => h.id = handlerId) = true
    · have hmem := (anyId_iff handlerId hs).1 hany
      have hres : EventManager.unregisterGo handlerId ((k, hs) :: t) =
          (true, if (EventManager.eraseFirstId handlerId hs).isEmpty then t
            else (k, EventManager.eraseFirstId handlerId hs) :: t) := by
        simp [EventManager.unregisterGo, hany]
      rw [hres]
      by_cases hemp : (EventManager.eraseFirstId handlerId hs).isEmpty
      · rw [if_pos hemp, allIdsOf_cons, List.erase_append_left _ hmem,
          ← map_id_eraseFirstId, List.isEmpty_iff.1 hemp]
        simp
      · rw [if_neg hemp, allIdsOf_cons, allIdsOf_cons,
          List.erase_append_left _ hmem, map_id_eraseFirstId]
    · have hmem : handlerId ∉ hs.map (fun h => h.id) :=
        fun hm => hany ((anyId_iff _ _).2 hm)
      have hres : EventManager.unregisterGo handlerId ((k, hs) :: t) =
          ((EventManager.unregisterGo handlerId t).1,
            (k, hs) :: (EventManager.unregisterGo handlerId t).2) := by
        simp [EventManager.unregisterGo, hany]
      rw [hres, allIdsOf_cons, allIdsOf_cons, ih,
        List.erase_append_right _ hmem]

theorem unregisterGo_not_found {α : Type} (handlerId : String)
    (l : List (String × List (EventHandlerMetadata α)))
    (h : handlerId ∉ allIdsOf l) :
    EventManager.unregisterGo handlerId l = (false, l) := by
  induction l with
  | nil => rfl
  | cons e t ih =>
    obtain ⟨k, hs⟩ := e
    rw [allIdsOf_cons] at h
    have h1 : handlerId ∉ hs.map (fun x => x.id) :=
      fun hm => h (List.mem_append_left _ hm)
    have h2 : handlerId ∉ allIdsOf t := fun hm => h (List.mem_append_right _ hm)
    have hany : ¬hs.any (fun x => x.id = handlerId) = true :=
      fun ha => h1 ((anyId_iff _ _).1 ha)
    simp [EventManager.unregisterGo, hany, ih h2]

theorem unregisterGo_getD {α : Type} (handlerId eventName : String)
    (l : List (String × List (EventHandlerMetadata α)))
    (hids : (allIdsOf l).Nodup) (hkeys : (l.map Prod.fst).Nodup) :
    (getEntry? (EventManager.unregisterGo handlerId l).2 eventName).getD [] =
      EventManager.eraseFirstId handlerId ((getEntry? l eventName).getD []) := by
  induction l with
  | nil => rfl
  | cons e t ih =>
    obtain ⟨k, hs⟩ := e
    rw [allIdsOf_cons, List.nodup_append] at hids
    obtain ⟨hnd1, hnd2, hdisj⟩ := hids
    simp only [List.map_cons, List.nodup_cons] at hkeys
    obtain ⟨hk_not, hkeys_t⟩ := hkeys
    have hother : ∀ bs, getEntry? t eventName = some bs →
        handlerId ∈ hs.map (fun h => h.id) →
        handlerId ∉ bs.map (fun h => h.id) := by
      intro bs hget hin hm
      exact hdisj hin (mem_allIdsOf_of_getEntry? hget hm)
    by_cases hany : hs.any (fun h => h.id = handlerId) = true
    · have hmem := (anyId_iff handlerId hs).1 hany
      have hres : EventManager.unregisterGo handlerId ((k, hs) :: t) =
          (true, if (EventManager.eraseFirstId handlerId hs).isEmpty then t
            else (k, EventManager.eraseFirstId handlerId hs) :: t) := by
        simp [EventManager.unregisterGo, hany]
      rw [hres]
      by_cases hemp : (EventManager.eraseFirstId handlerId hs).isEmpty
      · rw [if_pos hemp]
        by_cases hkE : k = eventName
        · subst hkE
          rw [getEntry?_eq_none_of_not_mem_keys hk_not]
          simp [getEntry?, List.isEmpty_iff.1 hemp]
        · simp only [getEntry?, if_neg hkE]
          cases hget : getEntry? t eventName with
          | none => rfl
          | some bs =>
            rw [Option.getD_some,
              eraseFirstId_of_not_mem (hother bs hget hmem)]
      · rw [if_neg hemp]
        by_cases hkE : k = eventName
        · simp [getEntry?, hkE]
        · simp only [getEntry?, if_neg hkE]
          cases hget : getEntry? t eventName with
          | none => rfl
          | some bs =>
            rw [Option.getD_some,
              eraseFirstId_of_not_mem (hother bs hget hmem)]
    · have hmem : handlerId ∉ hs.map (fun h => h.id) :=
        fun hm => hany ((anyId_iff _ _).2 hm)
      have hres : EventManager.unregisterGo handlerId ((k, hs) :: t) =
          ((EventManager.unregisterGo handlerId t).1,
            (k, hs) :: (EventManager.unregisterGo handlerId t).2) := by
        simp [EventManager.unregisterGo, hany]
      rw [hres]
      by_cases hkE : k = eventName
      · simp [getEntry?, hkE, eraseFirstId_of_not_mem hmem]
      · simp only [getEntry?, if_neg hkE]
        exact ih hnd2 hkeys_t

/-- C4: `unregister(id)` returns true exactly when a handler with that id is
registered; it removes exactly that handler from its type's bucket, leaving
the other handlers of the type in their relative order, and a second call
with the same id returns false leaving the manager unchanged. -/
theorem unregister_spec {α : Type} (m : EventManager α)
    (handlerId eventName : String) (hids : m.allIds.Nodup)
    (hkeys : (m.listeners.map Prod.fst).Nodup) :
    ((m.unregister handlerId).1 = true ↔ handlerId ∈ m.allIds) ∧
    (m.unregister handlerId).2.bucket eventName =
      EventManager.eraseFirstId handlerId (m.bucket eventName) ∧
    (m.unregister handlerId).2.unregister handlerId =
      (false, (m.unregister handlerId).2) := by
  refine ⟨?_, ?_, ?_⟩
  · simpa [EventManager.unregister, EventManager.allIds] using
      unregisterGo_fst handlerId m.listeners
  · simpa [EventManager.unregister, EventManager.bucket] using
      unregisterGo_getD handlerId eventName m.listeners hids hkeys
  · have hall : (m.unregister handlerId).2.allIds = m.allIds.erase handlerId := by
      simp [EventManager.unregister, EventManager.allIds, unregisterGo_allIds]
    have hnot : handlerId ∉ allIdsOf (m.unregister handlerId).2.listeners := by
      intro hm
      have hm' : handlerId ∈ m.allIds.erase handlerId := by
        rw [← hall]; exact hm
      exact ((List.Nodup.mem_erase_iff hids).1 hm').1 rfl
    have hgo := unregisterGo_not_found handlerId
      (m.unregister handlerId).2.listeners hnot
    show EventManager.unregister _ _ = _
    rw [EventManager.unregister, hgo]

/-- Witness for C4 on a concrete manager: removing `handler_2` succeeds once,
removes exactly that record, and fails on the second attempt. -/
theorem unregister_spec_witness :
    (let m := ((((EventManager.register {} "MyEvent" () 5).2.register
        "MyEvent" () 2).2.register "MyEvent" () 0).2 : EventManager Unit)
    ((m.unregister "handler_2").1 = true ↔ "handler_2" ∈ m.allIds) ∧
    (m.unregister "handler_2").2.bucket "MyEvent" =
      EventManager.eraseFirstId "handler_2" (m.bucket "MyEvent") ∧
    (m.unregister "handler_2").2.unregister "handler_2" =
      (false, (m.unregister "handler_2").2)) :=
  unregister_spec _ "handler_2" "MyEvent" (by decide) (by decide)

/-! ### C5: no empty buckets -/

/-- Predicate over listener tables: every entry's bucket is non-empty. -/
def noEmptyEntries {α : Type}
    (l : List (String × List (EventHandlerMetadata α))) : Bool :=
  l.all (fun e => !e.2.isEmpty)

/-- Predicate over managers: no event type in the table maps to an empty
handler list. -/
def noEmptyB {α : Type} (m : EventManager α) : Bool :=
  noEmptyEntries m.listeners

/-- States of an `EventManager` instance reachable from construction through
the four registry-mutating operations. -/
inductive Reach {α : Type} : EventManager α → Prop where
  | init : Reach {}
  | reg {m : EventManager α} (eventName : String) (handler : α)
      (priority : Nat) : Reach m → Reach (m.register eventName handler priority).2
  | unreg {m : EventManager α} (handlerId : String) :
      Reach m → Reach (m.unregister handlerId).2
  | unregAll {m : EventManager α} (eventName : Option String) :
      Reach m → Reach (m.unregisterAll eventName)
  | unregByPrio {m : EventManager α} (eventName : String) (priority : Nat) :
      Reach m → Reach (m.unregisterByPriority eventName priority)

theorem mem_of_getEntry? {β : Type} {l : List (String × β)} {k : String}
    {v : β} (hget : getEntry? l k = some v) : (k, v) ∈ l := by
  induction l with
  | nil => exact Option.noConfusion hget
  | cons e t ih =>
    by_cases he : e.1 = k
    · rw [getEntry?, if_pos he] at hget
      cases hget
      rw [← he]
      exact List.mem_cons_self _ _
    · rw [getEntry?, if_neg he] at hget
      exact List.mem_cons_of_mem _ (ih hget)

theorem noEmptyEntries_setEntry {α : Type}
    {l : List (String × List (EventHandlerMetadata α))} {k : String}
    {v : List (EventHandlerMetadata α)} (hl : noEmptyEntries l = true)
    (hv : v ≠ []) : noEmptyEntries (setEntry l k v) = true := by
  induction l with
  | nil => simp [setEntry, noEmptyEntries, List.isEmpty_iff, hv]
  | cons e t ih =>
    rw [noEmptyEntries, List.all_cons, Bool.and_eq_true] at hl
    by_cases he : e.1 = k
    · simp only [setEntry, if_pos he]
      simp [noEmptyEntries, List.isEmpty_iff, hv, hl.2]
    · simp only [setEntry, if_neg he]
      rw [noEmptyEntries, List.all_cons, Bool.and_eq_true]
      exact ⟨hl.1, ih hl.2⟩

theorem noEmptyEntries_delEntry {α : Type}
    {l : List (String × List (EventHandlerMetadata α))} {k : String}
    (hl : noEmptyEntries l = true) : noEmptyEntries (delEntry l k) = true := by
  induction l with
  | nil => rfl
  | cons e t ih =>
    rw [noEmptyEntries, List.all_cons, Bool.and_eq_true] at hl
    by_cases he : e.1 = k
    · simp only [delEntry, if_pos he]
      exact hl.2
    · simp only [delEntry, if_neg he]
      rw [noEmptyEntries, List.all_cons, Bool.and_eq_true]
      exact ⟨hl.1, ih hl.2⟩

theorem noEmptyEntries_unregisterGo {α : Type} (handlerId : String)
    {l : List (String × List (EventHandlerMetadata α))}
    (hl : noEmptyEntries l = true) :
    noEmptyEntries (EventManager.unregisterGo handlerId l).2 = true := by
  induction l with
  | nil => rfl
  | cons e t ih =>
    obtain ⟨k, hs⟩ := e
    rw [noEmptyEntries, List.all_cons, Bool.and_eq_true] at hl
    by_cases hany : hs.any (fun h => h.id = handlerId) = true
    · have hres : EventManager.unregisterGo handlerId ((k, hs) :: t) =
          (true, if (EventManager.eraseFirstId handlerId hs).isEmpty then t
            else (k, EventManager.eraseFirstId handlerId hs) :: t) := by
        simp [EventManager.unregisterGo, hany]
      rw [hres]
      by_cases hemp : (EventManager.eraseFirstId handlerId hs).isEmpty
      · rw [if_pos hemp]
        exact hl.2
      · rw [if_neg hemp]
        rw [noEmptyEntries, List.all_cons, Bool.and_eq_true]
        refine ⟨?_, hl.2⟩
        cases hb : (EventManager.eraseFirstId handlerId hs).isEmpty with
        | true => exact absurd hb hemp
        | false => rfl
    · have hres : EventManager.unregisterGo handlerId ((k, hs) :: t) =
          ((EventManager.unregisterGo handlerId t).1,
            (k, hs) :: (EventManager.unregisterGo handlerId t).2) := by
        simp [EventManager.unregisterGo, hany]
      rw [hres]
      rw [noEmptyEntries, List.all_cons, Bool.and_eq_true]
      exact ⟨hl.1, ih hl.2⟩

theorem sortByPriority_perm {α : Type} (l : List (EventHandlerMetadata α)) :
    (sortByPriority l).Perm l :=
  List.perm_insertionSort priorityLE l

theorem sortByPriority_append_singleton_ne_nil {α : Type}
    (l : List (EventHandlerMetadata α)) (x : EventHandlerMetadata α) :
    sortByPriority (l ++ [x]) ≠ [] := by
  intro hnil
  have hp := sortByPriority_perm (l ++ [x])
  rw [hnil] at hp
  have := hp.length_eq
  simp at this

theorem reach_noEmptyB {α : Type} {m : EventManager α} (hm : Reach m) :
    noEmptyB m = true := by
  induction hm with
  | init => rfl
  | reg eventName handler priority _ ih =>
    exact noEmptyEntries_setEntry ih
      (sortByPriority_append_singleton_ne_nil _ _)
  | unreg handlerId _ ih => exact noEmptyEntries_unregisterGo handlerId ih
  | unregAll eventName _ ih =>
    cases eventName with
    | some k => exact noEmptyEntries_delEntry ih
    | none => rfl
  | unregByPrio eventName priority hr ih =>
    rw [EventManager.unregisterByPriority]
    cases hget : getEntry? _ eventName with
    | none => exact ih
    | some hs =>
      simp only
      by_cases hemp : (hs.filter (fun h => h.priority ≠ priority)).isEmpty
      · rw [if_pos hemp]
        exact noEmptyEntries_delEntry ih
      · rw [if_neg hemp]
        refine noEmptyEntries_setEntry ih ?_
        rw [List.isEmpty_iff] at hemp
        exact hemp

/-- C5: in every reachable registry state no event type maps to an empty
handler list, so a type whose bucket is emptied loses its table entry
entirely: whenever `getHandlerCount` is `0` the table has no entry for the
type and `hasHandlers` is `false`. -/
theorem no_empty_buckets {α : Type} {m : EventManager α} (hm : Reach m)
    (eventName : String) :
    noEmptyB m = true ∧
    (m.getHandlerCount eventName = 0 →
      getEntry? m.listeners eventName = none ∧
      m.hasHandlers eventName = false) := by
  have hne := reach_noEmptyB hm
  refine ⟨hne, fun hcount => ?_⟩
  have hnone : getEntry? m.listeners eventName = none := by
    cases hget : getEntry? m.listeners eventName with
    | none => rfl
    | some hs =>
      exfalso
      rw [EventManager.getHandlerCount, EventManager.bucket, hget,
        Option.getD_some, List.length_eq_zero] at hcount
      have hmem : (eventName, hs) ∈ m.listeners := mem_of_getEntry? hget
      rw [noEmptyB, noEmptyEntries, List.all_eq_true] at hne
      have := hne _ hmem
      rw [hcount] at this
      simp at this
  exact ⟨hnone, by rw [EventManager.hasHandlers, hnone]⟩

/-- Witness for C5: registering one handler and then unregistering it leaves
a reachable state with count `0`, no table entry and `hasHandlers` false. -/
theorem no_empty_buckets_witness :
    (let m := (((EventManager.register {} "MyEvent" () 3).2.unregister
      "handler_1").2 : EventManager Unit)
    noEmptyB m = true ∧
    (m.getHandlerCount "MyEvent" = 0 →
      getEntry? m.listeners "MyEvent" = none ∧
      m.hasHandlers "MyEvent" = false)) :=
  no_empty_buckets
    (Reach.unreg "handler_1" (Reach.reg "MyEvent" () 3 Reach.init)) "MyEvent"

/-! ### Dispatch-loop lemmas -/

/-- State after invoking a list of handlers in order (ignoring raised
errors, which the callers below rule out). -/
def runSeqR {α σ ε : Type} (run : α → σ → σ × Option ε)
    (hs : List (EventHandlerMetadata α)) (s : σ) : σ :=
  hs.foldl (fun s h => (run h.handler s).1) s

theorem runSeqR_cons {α σ ε : Type} (run : α → σ → σ × Option ε)
    (r : EventHandlerMetadata α) (t : List (EventHandlerMetadata α)) (s : σ) :
    runSeqR run (r :: t) s = runSeqR run t (run r.handler s).1 := by
  simp [runSeqR]

theorem emitLoop_all_ok {α σ ε : Type} (run : α → σ → σ × Option ε)
    (hok : ∀ a s, (run a s).2 = none) (hs : List (EventHandlerMetadata α)) :
    ∀ (s : σ) (n : Nat) (d : List (Nat × String)),
      emitLoop run (fun _ => false) hs s n d =
        (runSeqR run hs s,
          Except.ok (n + hs.length, d ++ hs.map (fun h => (h.priority, h.id)))) := by
  induction hs with
  | nil => intro s n d; simp [emitLoop, runSeqR]
  | cons r t ih =>
    intro s n d
    cases hrun : run r.handler s with
    | mk s' o =>
      have ho : o = none := by
        have := hok r.handler s
        rw [hrun] at this
        exact this
      subst ho
      rw [emitLoop, if_neg (by simp), hrun]
      dsimp only
      rw [ih s' (n + 1) (d ++ [(r.priority, r.id)])]
      rw [runSeqR_cons, hrun]
      simp [Nat.add_assoc, Nat.add_comm 1 t.length]

theorem emitLoop_cancelled {α σ ε : Type} (run : α → σ → σ × Option ε)
    (canc : σ → Bool) (hs : List (EventHandlerMetadata α)) (s : σ) (n : Nat)
    (d : List (Nat × String)) (hc : canc s = true) :
    emitLoop run canc hs s n d = (s, Except.ok (n, d)) := by
  cases hs with
  | nil => rfl
  | cons r t => rw [emitLoop, if_pos hc]

/-- Check that a prefix of the snapshot runs through cleanly: before each of
its handlers the cancellation flag is down, and none of them raises. -/
def runsCleanB {α σ ε : Type} (run : α → σ → σ × Option ε) (canc : σ → Bool) :
    List (EventHandlerMetadata α) → σ → Bool
  | [], _ => true
  | r :: t, s =>
    !canc s &&
      (match run r.handler s with
       | (s', none) => runsCleanB run canc t s'
       | (_, some _) => false)

theorem emitLoop_clean_append {α σ ε : Type} (run : α → σ → σ × Option ε)
    (canc : σ → Bool) (pre : List (EventHandlerMetadata α)) :
    ∀ (rest : List (EventHandlerMetadata α)) (s : σ) (n : Nat)
      (d : List (Nat × String)), runsCleanB run canc pre s = true →
      emitLoop run canc (pre ++ rest) s n d =
        emitLoop run canc rest (runSeqR run pre s) (n + pre.length)
          (d ++ pre.map (fun h => (h.priority, h.id))) := by
  induction pre with
  | nil => intro rest s n d _; simp [runSeqR]
  | cons r t ih =>
    intro rest s n d hclean
    rw [runsCleanB, Bool.and_eq_true] at hclean
    obtain ⟨h1, h2⟩ := hclean
    rw [Bool.not_eq_true'] at h1
    cases hrun : run r.handler s with
    | mk s' o =>
      rw [hrun] at h2
      cases o with
      | some e => exact absurd h2 (by simp)
      | none =>
        rw [List.cons_append, emitLoop, if_neg (by rw [h1]; simp), hrun]
        dsimp only
        rw [ih rest s' (n + 1) (d ++ [(r.priority, r.id)]) h2]
        rw [runSeqR_cons, hrun]
        simp [Nat.add_assoc, Nat.add_comm 1 t.length]

/-! ### C3: snapshot isolation -/

/-- Registry operations a handler can perform on the live manager during a
dispatch: the same four mutators modelled above.  A handler payload for C3 is
a script of such operations; `reg` registers a handler with an empty script. -/
inductive RegOp where
  | reg (eventName : String) (priority : Nat)
  | unreg (handlerId : String)
  | unregAll (eventName : Option String)
  | unregByPrio (eventName : String) (priority : Nat)

/-- Application of one registry operation to the live manager state. -/
def applyOp (m : EventManager (List RegOp)) : RegOp → EventManager (List RegOp)
  | RegOp.reg eventName priority => (m.register eventName [] priority).2
  | RegOp.unreg handlerId => (m.unregister handlerId).2
  | RegOp.unregAll eventName => m.unregisterAll eventName
  | RegOp.unregByPrio eventName priority =>
    m.unregisterByPriority eventName priority

/-- Interpretation of a handler payload for C3: the handler mutates the live
registry by running its script of operations; it never throws. -/
def runRegOps (ops : List RegOp) (m : EventManager (List RegOp)) :
    EventManager (List RegOp) × Option Empty :=
  (ops.foldl applyOp m, none)

/-- C3: the handlers an emission invokes are exactly the ones in the sorted
snapshot of the registry taken when `emit` was called.  Here the dispatched
manager itself is the mutable state: every handler runs an arbitrary script
of `register` / `unregister` / `unregisterAll` / `unregisterByPriority`
operations against the live registry mid-loop, yet the executed-handler list
and count are those of the call-time snapshot. -/
theorem emit_dispatches_snapshot (m : EventManager (List RegOp))
    (eventName : String) :
    m.emit eventName runRegOps (fun _ => false) m =
      (runSeqR runRegOps (m.snapshot eventName) m,
        Except.ok
          { event := runSeqR runRegOps (m.snapshot eventName) m,
            handlerCount := (m.snapshot eventName).length,
            executedHandlers :=
              (m.snapshot eventName).map (fun h => (h.priority, h.id)) }) := by
  have hok : ∀ a s, (runRegOps a s).2 = none := fun _ _ => rfl
  rw [EventManager.emit, emitLoop_all_ok runRegOps hok]
  simp

/-! ### Stable-sort characterisation -/

theorem sortByPriority_sorted {α : Type} (l : List (EventHandlerMetadata α)) :
    (sortByPriority l).Pairwise priorityLE :=
  List.sorted_insertionSort priorityLE l

/-- Stability of the sort: the records of any fixed priority appear in the
sorted list exactly as they appear in the input. -/
theorem sortByPriority_filter_priority {α : Type}
    (l : List (EventHandlerMetadata α)) (p : Nat) :
    (sortByPriority l).filter (fun h => h.priority = p) =
      l.filter (fun h => h.priority = p) := by
  have hpair : (l.filter (fun h => h.priority = p)).Pairwise priorityLE := by
    apply List.pairwise_of_forall_mem_list
    intro a ha b hb
    rw [List.mem_filter, decide_eq_true_eq] at ha hb
    rw [priorityLE, ha.2, hb.2]
  have h1 : List.Sublist (l.filter (fun h => h.priority = p))
      (sortByPriority l) :=
    List.sublist_insertionSort hpair (List.filter_sublist l)
  have h2 : List.Sublist
      ((l.filter (fun h => h.priority = p)).filter (fun h => h.priority = p))
      ((sortByPriority l).filter (fun h => h.priority = p)) :=
    h1.filter _
  rw [List.filter_filter] at h2
  have h3 : (l.filter (fun h => decide (h.priority = p) &&
      decide (h.priority = p))) = l.filter (fun h => h.priority = p) := by
    apply List.filter_congr
    intro x _
    cases hx : decide (x.priority = p) <;> simp [hx]
  rw [h3] at h2
  have h4 : ((sortByPriority l).filter (fun h => h.priority = p)).length =
      (l.filter (fun h => h.priority = p)).length :=
    ((sortByPriority_perm l).filter _).length_eq
  exact (h2.eq_of_length h4.symm).symm

/-! ### C1: priority order with stable ties -/

theorem register_bucket_self {α : Type} (m : EventManager α) (eventName : String)
    (h : α) (p : Nat) :
    (m.register eventName h p).2.bucket eventName =
      sortByPriority (m.bucket eventName ++
        [⟨h, p, idOfNat (m.handlerCounter + 1)⟩]) := by
  simp [EventManager.register, EventManager.bucket, getEntry?_setEntry_self]

/-- Sequence of `register` calls for one event type, in call order. -/
def registerSeq {α : Type} (m : EventManager α) (eventName : String) :
    List (α × Nat) → EventManager α
  | [] => m
  | (h, p) :: t => registerSeq (m.register eventName h p).2 eventName t

/-- Records the registration sequence creates, in registration order, given
the counter value before the first call: the `i`-th gets id
`handler_<counter+i+1>`. -/
def expectedRecords {α : Type} (counter : Nat) :
    List (α × Nat) → List (EventHandlerMetadata α)
  | [] => []
  | (h, p) :: t => ⟨h, p, idOfNat (counter + 1)⟩ :: expectedRecords (counter + 1) t

theorem registerSeq_filter {α : Type} (eventName : String) (p : Nat)
    (regs : List (α × Nat)) :
    ∀ m : EventManager α,
      ((registerSeq m eventName regs).bucket eventName).filter
          (fun h => h.priority = p) =
        (m.bucket eventName).filter (fun h => h.priority = p) ++
          (expectedRecords m.handlerCounter regs).filter
            (fun h => h.priority = p) := by
  induction regs with
  | nil => intro m; simp [registerSeq, expectedRecords]
  | cons hp t ih =>
    intro m
    obtain ⟨h, p0⟩ := hp
    rw [registerSeq, ih, register_bucket_self, sortByPriority_filter_priority,
      List.filter_append]
    have hc : (m.register eventName h p0).2.handlerCounter =
        m.handlerCounter + 1 := rfl
    rw [hc, List.append_assoc]
    by_cases hd : p0 = p <;>
      simp [expectedRecords, List.filter_cons, hd]

theorem registerSeq_length {α : Type} (eventName : String)
    (regs : List (α × Nat)) :
    ∀ m : EventManager α,
      ((registerSeq m eventName regs).bucket eventName).length =
        (m.bucket eventName).length + regs.length := by
  induction regs with
  | nil => intro m; simp [registerSeq]
  | cons hp t ih =>
    intro m
    obtain ⟨h, p0⟩ := hp
    rw [registerSeq, ih, register_bucket_self]
    rw [(sortByPriority_perm _).length_eq]
    simp [Nat.add_assoc, Nat.add_comm 1 t.length]

/-- C1: emitting after any sequence of registrations on one event type
invokes the handlers in non-decreasing priority order, and the handlers of
any fixed priority `p` are invoked exactly in registration order (a later
registration at an equal priority runs after those already present). -/
theorem emit_priority_order {σ : Type} (eventName : String)
    (regs : List ((σ → σ) × Nat)) (s0 : σ) (p : Nat) :
    ∃ res,
      ((registerSeq {} eventName regs).emit eventName runPure
          (fun _ => false) s0).2 = Except.ok res ∧
      res.executedHandlers.Pairwise (fun a b => a.1 ≤ b.1) ∧
      res.executedHandlers.filter (fun x => x.1 = p) =
        ((expectedRecords 0 regs).filter (fun h => h.priority = p)).map
          (fun h => (h.priority, h.id)) ∧
      res.handlerCount = regs.length := by
  have hok : ∀ (f : σ → σ) s, (runPure f s).2 = none := fun _ _ => rfl
  have hloop := emitLoop_all_ok runPure hok
    ((registerSeq {} eventName regs).snapshot eventName) s0 0 []
  refine ⟨_, by rw [EventManager.emit, hloop], ?_, ?_, ?_⟩
  · simp only [List.nil_append]
    refine List.pairwise_map.mpr ?_
    exact sortByPriority_sorted _
  · simp only [List.nil_append, List.filter_map]
    rw [show ((registerSeq ({} : EventManager (σ → σ)) eventName regs).snapshot
        eventName).filter ((fun x => decide (x.1 = p)) ∘ fun h => (h.priority, h.id)) =
        ((registerSeq ({} : EventManager (σ → σ)) eventName regs).snapshot
          eventName).filter (fun h => h.priority = p) from rfl]
    rw [EventManager.snapshot, sortByPriority_filter_priority,
      registerSeq_filter]
    rfl
  · simp only [Nat.zero_add]
    rw [EventManager.snapshot, (sortByPriority_perm _).length_eq,
      registerSeq_length]
    simp [EventManager.bucket, getEntry?]

/-! ### C2: cancellation short-circuit -/

/-- C2: the cancellation check runs strictly before each invocation.  For any
snapshot decomposition `pre ++ c :: post` in which the handlers of `pre` run
with the flag down and `c` finds the flag down but cancels with `reason`
during its own execution, `c` completes and is counted (`handlerCount` is
`pre.length + 1` and `c` appears last in `executedHandlers`), no handler of
`post` runs, and afterwards `isCancelled()` is true with `getCancelReason()`
equal to the reason passed to `cancel`. -/
theorem emit_cancel_short_circuit
    (m : EventManager (CancellableEvent → CancellableEvent))
    (eventName : String)
    (pre post : List (EventHandlerMetadata (CancellableEvent → CancellableEvent)))
    (c : EventHandlerMetadata (CancellableEvent → CancellableEvent))
    (s0 s' : CancellableEvent) (reason : String)
    (hsnap : m.snapshot eventName = pre ++ c :: post)
    (hpre : runsCleanB runPure CancellableEvent.isCancelled pre s0 = true)
    (hmid : (runSeqR runPure pre s0).isCancelled = false)
    (hrun : c.handler (runSeqR runPure pre s0) = s'.cancel reason) :
    m.emit eventName runPure CancellableEvent.isCancelled s0 =
      (s'.cancel reason,
        Except.ok
          { event := s'.cancel reason,
            handlerCount := pre.length + 1,
            executedHandlers :=
              (pre ++ [c]).map (fun h => (h.priority, h.id)) }) ∧
    (s'.cancel reason).isCancelled = true ∧
    (s'.cancel reason).getCancelReason = reason := by
  refine ⟨?_, rfl, rfl⟩
  rw [EventManager.emit, hsnap]
  rw [emitLoop_clean_append runPure CancellableEvent.isCancelled pre
    (c :: post) s0 0 [] hpre]
  rw [emitLoop, if_neg (by rw [hmid]; simp)]
  dsimp only [runPure]
  rw [hrun]
  rw [emitLoop_cancelled runPure CancellableEvent.isCancelled post
    (s'.cancel reason) _ _ rfl]
  simp [List.map_append, Nat.add_comm]

/-- Handler used in the C2 witness: cancels the event with reason
`"stop-now"`. -/
def stopNow : CancellableEvent → CancellableEvent :=
  fun e => e.cancel "stop-now"

/-- Handler used in the C2 witness: leaves the event unchanged. -/
def keepGoing : CancellableEvent → CancellableEvent :=
  fun e => e

/-- Witness for C2, the spec's example: H1 at NORMAL cancels with
`"stop-now"`, H2 at LOW never runs, `handlerCount` is 1. -/
theorem emit_cancel_short_circuit_witness :
    (let m := ((EventManager.register {} "MyEvent" stopNow 3).2.register
      "MyEvent" keepGoing 4).2
    m.emit "MyEvent" runPure CancellableEvent.isCancelled {} =
      (CancellableEvent.cancel {} "stop-now",
        Except.ok
          { event := CancellableEvent.cancel {} "stop-now",
            handlerCount := 1,
            executedHandlers := [(3, "handler_1")] }) ∧
    (CancellableEvent.cancel {} "stop-now").isCancelled = true ∧
    (CancellableEvent.cancel {} "stop-now").getCancelReason = "stop-now") :=
  emit_cancel_short_circuit _ "MyEvent" []
    [⟨keepGoing, 4, "handler_2"⟩] ⟨stopNow, 3, "handler_1"⟩ {} {} "stop-now"
    rfl rfl rfl rfl

/-! ### C6: a throwing handler aborts the emission -/

/-- C6: when the handlers before `c` in the snapshot run cleanly and `c`
throws `e` (leaving the world in state `sFail`), the whole `emit` call fails
with exactly that error: no `EmissionResult` is produced, the handlers after
`c` in the snapshot are never invoked, and the state keeps the effects of the
handlers that already ran (it is `sFail`, the state as the failing handler
left it). -/
theorem emit_handler_throw {σ ε : Type} (m : EventManager (σ → σ × Option ε))
    (eventName : String) (canc : σ → Bool)
    (pre post : List (EventHandlerMetadata (σ → σ × Option ε)))
    (c : EventHandlerMetadata (σ → σ × Option ε)) (s0 sFail : σ) (e : ε)
    (hsnap : m.snapshot eventName = pre ++ c :: post)
    (hpre : runsCleanB runExc canc pre s0 = true)
    (hmid : canc (runSeqR runExc pre s0) = false)
    (hthrow : c.handler (runSeqR runExc pre s0) = (sFail, some e)) :
    m.emit eventName runExc canc s0 = (sFail, Except.error e) := by
  rw [EventManager.emit, hsnap]
  rw [emitLoop_clean_append runExc canc pre (c :: post) s0 0 [] hpre]
  rw [emitLoop, if_neg (by rw [hmid]; simp)]
  dsimp only [runExc]
  rw [hthrow]

/-- Handler used in the C6 witness: increments the counter and resolves. -/
def bumpCounter : Nat → Nat × Option String :=
  fun n => (n + 1, none)

/-- Handler used in the C6 witness: increments the counter, then rejects with
`"boom"`. -/
def throwBoom : Nat → Nat × Option String :=
  fun n => (n + 1, some "boom")

/-- Handler used in the C6 witness: would add 100, but is never invoked. -/
def neverRuns : Nat → Nat × Option String :=
  fun n => (n + 100, none)

/-- Witness for C6: of three handlers the second throws; `emit` fails with
`"boom"`, the state keeps the first two increments and the third handler's
effect never happens. -/
theorem emit_handler_throw_witness :
    (let m := (((EventManager.register {} "MyEvent" bumpCounter 1).2.register
      "MyEvent" throwBoom 2).2.register "MyEvent" neverRuns 3).2
    m.emit "MyEvent" runExc (fun _ => false) 0 = (2, Except.error "boom")) :=
  emit_handler_throw _ "MyEvent" (fun _ => false)
    [⟨bumpCounter, 1, "handler_1"⟩] [⟨neverRuns, 3, "handler_3"⟩]
    ⟨throwBoom, 2, "handler_2"⟩ 0 2 "boom" rfl rfl rfl rfl

/-! ### Decimal rendering is injective (for the `handler_<n>` ids) -/

/-- Decimal digit list of a natural number, most significant first; a
fuel-free restatement of `Nat.toDigits 10`. -/
def decimalDigits (n : Nat) : List Char :=
  if _h : n < 10 then [Nat.digitChar n]
  else decimalDigits (n / 10) ++ [Nat.digitChar (n % 10)]
decreasing_by exact Nat.div_lt_self (by omega) (by omega)

theorem toDigitsCore_eq_decimalDigits (n : Nat) :
    ∀ (fuel : Nat) (ds : List Char), n < fuel →
      Nat.toDigitsCore 10 fuel n ds = decimalDigits n ++ ds := by
  induction n using Nat.strong_induction_on with
  | _ n ih =>
    intro fuel ds hlt
    match fuel with
    | 0 => omega
    | fuel + 1 =>
      rw [Nat.toDigitsCore]
      by_cases hz : n / 10 = 0
      · have hn10 : n < 10 := by omega
        rw [if_pos hz, decimalDigits, dif_pos hn10, Nat.mod_eq_of_lt hn10]
        rfl
      · have hpos : 0 < n := by omega
        have hdiv : n / 10 < n := Nat.div_lt_self hpos (by omega)
        rw [if_neg hz, ih (n / 10) hdiv fuel (Nat.digitChar (n % 10) :: ds)
          (by omega)]
        conv_rhs => rw [decimalDigits]
        rw [dif_neg (show ¬n < 10 by omega)]
        simp [List.append_assoc]

theorem toDigits_eq_decimalDigits (n : Nat) :
    Nat.toDigits 10 n = decimalDigits n := by
  rw [Nat.toDigits, toDigitsCore_eq_decimalDigits n (n + 1) [] (by omega)]
  simp

/-- Numeric value of a decimal digit character. -/
def digitVal (c : Char) : Nat :=
  c.toNat - '0'.toNat

/-- Value of a most-significant-first decimal digit list. -/
def valOfDigits : List Char → Nat
  | [] => 0
  | c :: cs => digitVal c * 10 ^ cs.length + valOfDigits cs

theorem valOfDigits_append_singleton (l : List Char) (c : Char) :
    valOfDigits (l ++ [c]) = 10 * valOfDigits l + digitVal c := by
  induction l with
  | nil => simp [valOfDigits]
  | cons c0 t ih =>
    rw [List.cons_append, valOfDigits, valOfDigits, ih, List.length_append]
    simp only [List.length_cons, List.length_nil, pow_succ, pow_zero]
    ring

theorem digitVal_digitChar (d : Nat) (hd : d < 10) :
    digitVal (Nat.digitChar d) = d := by
  interval_cases d <;> rfl

theorem valOfDigits_decimalDigits (n : Nat) :
    valOfDigits (decimalDigits n) = n := by
  induction n using Nat.strong_induction_on with
  | _ n ih =>
    by_cases h : n < 10
    · rw [decimalDigits, dif_pos h]
      simp [valOfDigits, digitVal_digitChar n h]
    · have hpos : 0 < n := by omega
      have hdiv : n / 10 < n := Nat.div_lt_self hpos (by omega)
      rw [decimalDigits, dif_neg h, valOfDigits_append_singleton, ih _ hdiv,
        digitVal_digitChar _ (Nat.mod_lt n (by omega))]
      omega

theorem decimalDigits_injective {a b : Nat}
    (h : decimalDigits a = decimalDigits b) : a = b := by
  have := congrArg valOfDigits h
  rwa [valOfDigits_decimalDigits, valOfDigits_decimalDigits] at this

theorem repr_injective {a b : Nat} (h : Nat.repr a = Nat.repr b) : a = b := by
  apply decimalDigits_injective
  rw [← toDigits_eq_decimalDigits, ← toDigits_eq_decimalDigits]
  have hd := congrArg String.data h
  rw [Nat.repr, Nat.repr] at hd
  exact hd

theorem idOfNat_injective {a b : Nat} (h : idOfNat a = idOfNat b) : a = b := by
  apply repr_injective
  have hd := congrArg String.data h
  rw [idOfNat, idOfNat] at hd
  have hdata : (Nat.repr a).data = (Nat.repr b).data :=
    List.append_cancel_left hd
  exact String.ext hdata

/-! ### C9: fresh, unique handler ids -/

theorem allIdsOf_delEntry_sublist {α : Type} (k : String)
    (l : List (String × List (EventHandlerMetadata α))) :
    List.Sublist (allIdsOf (delEntry l k)) (allIdsOf l) := by
  induction l with
  | nil => exact List.Sublist.refl _
  | cons e t ih =>
    obtain ⟨k0, b⟩ := e
    by_cases he : k0 = k
    · simp only [delEntry, if_pos he, allIdsOf_cons]
      exact List.sublist_append_right _ _
    · simp only [delEntry, if_neg he, allIdsOf_cons]
      exact ih.append_left _

theorem allIdsOf_setEntry_sublist {α : Type} {k : String}
    {l : List (String × List (EventHandlerMetadata α))}
    {hs v : List (EventHandlerMetadata α)}
    (hget : getEntry? l k = some hs) (hsub : List.Sublist v hs) :
    List.Sublist (allIdsOf (setEntry l k v)) (allIdsOf l) := by
  induction l with
  | nil => exact Option.noConfusion hget
  | cons e t ih =>
    obtain ⟨k0, b⟩ := e
    by_cases he : k0 = k
    · rw [getEntry?, if_pos he] at hget
      cases hget
      simp only [setEntry, if_pos he, allIdsOf_cons]
      exact (hsub.map _).append_right _
    · rw [getEntry?, if_neg he] at hget
      simp only [setEntry, if_neg he, allIdsOf_cons]
      exact (ih hget).append_left _

theorem allIdsOf_setEntry_register_perm {α : Type} (k : String)
    (rec : EventHandlerMetadata α)
    (l : List (String × List (EventHandlerMetadata α))) :
    (allIdsOf (setEntry l k
        (sortByPriority (((getEntry? l k).getD []) ++ [rec])))).Perm
      (allIdsOf l ++ [rec.id]) := by
  induction l with
  | nil =>
    simp only [getEntry?, Option.getD_none, List.nil_append, setEntry,
      allIdsOf_cons]
    simpa [allIdsOf] using ((sortByPriority_perm [rec]).map (fun h => h.id))
  | cons e t ih =>
    obtain ⟨k0, b⟩ := e
    by_cases he : k0 = k
    · simp only [getEntry?, if_pos he, Option.getD_some, setEntry,
        allIdsOf_cons]
      have hp := (sortByPriority_perm (b ++ [rec])).map (fun h => h.id)
      refine (hp.append_right (allIdsOf t)).trans ?_
      rw [List.map_append, List.map_cons, List.map_nil]
      rw [List.append_assoc, List.append_assoc]
      exact List.Perm.append_left _ List.perm_append_comm
    · simp only [getEntry?, if_neg he, Option.getD_some, setEntry,
        allIdsOf_cons]
      rw [List.append_assoc]
      exact List.Perm.append_left _ ih

theorem fresh_id_not_mem {ids : List String} {c : Nat}
    (hbound : ∀ s ∈ ids, ∃ k, 0 < k ∧ k ≤ c ∧ s = idOfNat k) :
    idOfNat (c + 1) ∉ ids := by
  intro hmem
  obtain ⟨k, hk0, hkle, hke⟩ := hbound _ hmem
  have := idOfNat_injective hke
  omega

theorem reach_ids {α : Type} {m : EventManager α} (hm : Reach m) :
    m.allIds.Nodup ∧
      ∀ s ∈ m.allIds, ∃ k, 0 < k ∧ k ≤ m.handlerCounter ∧ s = idOfNat k := by
  induction hm with
  | init =>
    refine ⟨List.nodup_nil, ?_⟩
    intro s hs
    simp [EventManager.allIds, allIdsOf] at hs
  | @reg m0 eventName handler priority hr ih =>
    obtain ⟨hnd, hbound⟩ := ih
    have hperm := allIdsOf_setEntry_register_perm eventName
      ⟨handler, priority, idOfNat (m0.handlerCounter + 1)⟩ m0.listeners
    have hfresh : idOfNat (m0.handlerCounter + 1) ∉ m0.allIds :=
      fresh_id_not_mem hbound
    constructor
    · refine (hperm.nodup_iff).2 ?_
      refine List.Nodup.append hnd (List.nodup_singleton _) ?_
      intro a ha hb
      rw [List.mem_singleton] at hb
      subst hb
      exact hfresh ha
    · intro s hs
      have hs' := (hperm.mem_iff).1 hs
      rw [List.mem_append] at hs'
      cases hs' with
      | inl h0 =>
        obtain ⟨k, h1, h2, h3⟩ := hbound _ h0
        exact ⟨k, h1, Nat.le_trans h2 (Nat.le_succ _), h3⟩
      | inr h0 =>
        rw [List.mem_singleton] at h0
        exact ⟨m0.handlerCounter + 1, by omega, Nat.le_refl _, h0⟩
  | @unreg m0 handlerId hr ih =>
    obtain ⟨hnd, hbound⟩ := ih
    have hall : (m0.unregister handlerId).2.allIds = m0.allIds.erase handlerId :=
      unregisterGo_allIds handlerId m0.listeners
    constructor
    · rw [hall]
      exact hnd.erase _
    · intro s hs
      rw [hall] at hs
      exact hbound s (List.mem_of_mem_erase hs)
  | @unregAll m0 eventName hr ih =>
    obtain ⟨hnd, hbound⟩ := ih
    cases eventName with
    | some k =>
      have hsub := allIdsOf_delEntry_sublist (α := α) k m0.listeners
      exact ⟨List.Nodup.sublist hsub hnd, fun s hs => hbound s (hsub.subset hs)⟩
    | none =>
      refine ⟨List.nodup_nil, ?_⟩
      intro s hs
      simp [EventManager.allIds, EventManager.unregisterAll, allIdsOf] at hs
  | @unregByPrio m0 eventName priority hr ih =>
    obtain ⟨hnd, hbound⟩ := ih
    rw [EventManager.unregisterByPriority]
    cases hget : getEntry? m0.listeners eventName with
    | none => exact ⟨hnd, hbound⟩
    | some hs =>
      simp only
      by_cases hemp : (hs.filter (fun h => h.priority ≠ priority)).isEmpty
      · rw [if_pos hemp]
        have hsub := allIdsOf_delEntry_sublist (α := α) eventName m0.listeners
        exact ⟨List.Nodup.sublist hsub hnd, fun s hsm => hbound s (hsub.subset hsm)⟩
      · rw [if_neg hemp]
        have hsub := allIdsOf_setEntry_sublist hget
          (List.filter_sublist (p := fun h => decide (h.priority ≠ priority)) hs)
        exact ⟨List.Nodup.sublist hsub hnd, fun s hsm => hbound s (hsub.subset hsm)⟩

/-- C9: in every reachable state, `register` returns the id
`handler_<counter+1>` and bumps the counter (so returned ids are issued from
a strictly increasing counter and never repeat), the table never holds two
records with the same id, and the id just issued is not present anywhere in
the table before the call. -/
theorem register_fresh_unique_ids {α : Type} {m : EventManager α}
    (hm : Reach m) (eventName : String) (handler : α) (priority : Nat) :
    (m.register eventName handler priority).1 = idOfNat (m.handlerCounter + 1) ∧
    (m.register eventName handler priority).2.handlerCounter =
      m.handlerCounter + 1 ∧
    m.allIds.Nodup ∧
    (m.register eventName handler priority).1 ∉ m.allIds ∧
    (m.register eventName handler priority).2.allIds.Nodup := by
  obtain ⟨hnd, hbound⟩ := reach_ids hm
  refine ⟨rfl, rfl, hnd, fresh_id_not_mem hbound, ?_⟩
  exact (reach_ids (Reach.reg eventName handler priority hm)).1

/-- Witness for C9 on a concrete reachable manager holding two live handlers
after one unregistration. -/
theorem register_fresh_unique_ids_witness :
    (let m := ((((EventManager.register {} "TypeA" () 3).2.register
      "TypeB" () 4).2.register "TypeA" () 1).2.unregister "handler_1").2
    (m.register "TypeA" () 2).1 = idOfNat (m.handlerCounter + 1) ∧
    (m.register "TypeA" () 2).2.handlerCounter = m.handlerCounter + 1 ∧
    m.allIds.Nodup ∧
    (m.register "TypeA" () 2).1 ∉ m.allIds ∧
    (m.register "TypeA" () 2).2.allIds.Nodup) :=
  register_fresh_unique_ids
    (Reach.unreg "handler_1" (Reach.reg "TypeA" () 1 (Reach.reg "TypeB" () 4
      (Reach.reg "TypeA" () 3 Reach.init)))) "TypeA" () 2
